import Mathlib

/-!
Shallow embedding of the `content-store` HTTP service (`src/index.js`).

The service is a content-addressable store: `POST /upload` streams each
multipart file part through a digest stream into a uniquely named temporary
file and then renames the temporary file to `storageRoot/digest`;
`DELETE /:id` removes a stored object; the constructor validates the
injected hash-strategy factory.

The upload handler of `src/index.js` is event driven and single threaded
(Node's event loop): the code between two `await` points runs atomically.
We embed it as a step function over an explicit handler state, driven by a
trace of atomic events:

* `Ev.partEv pid fn content` — multiparty dispatches a `'part'` event.  For
  a file part (`fn = some name`) the handler runs `taskPlus()`, allocates a
  temporary file and starts piping (`src/index.js` lines 125-143); the
  unique random temporary name is modelled by the part id `pid`.  For a
  part without a filename the `if (part.filename)` guard skips everything.
* `Ev.sinkFinish pid` — the awaited `'finish'` of the temporary-file sink
  resolves: the digest is read and `[part.filename, digest]` is pushed onto
  `files`, then `fs.move` is started (lines 144-153).
* `Ev.sinkFail pid written` — the awaited write fails (stream or sink
  error) with `written` bytes in the temporary file; the `catch` block
  calls `onAnyError` (lines 157-159).  No cleanup of the temporary file is
  performed by the code.
* `Ev.moveDone pid` — the awaited `fs.move` resolves: the object is now at
  `storageRoot/digest` (overwriting any previous object there), the
  temporary file is gone, and `taskMinus()` runs (lines 153-155).
* `Ev.moveFail pid` — the awaited `fs.move` rejects; the `catch` block
  calls `onAnyError`.  The temporary file is left behind.
* `Ev.closeEv` — the form `'close'` event: `taskMinus()` (line 162).
* `Ev.formError` — the form `'error'` event: `onAnyError` (line 164).

The injected hash strategy is a parameter `hf : List Nat → String`: the
digest of a byte sequence in the configured encoding, exactly as
`HashThrough(createHash)` produces it from the streamed bytes.

The fields `pushOrder` and `commitOrder` of the state are ghost
bookkeeping recording the order in which parts were pushed onto `files`
and the order in which their renames completed; they influence nothing.
-/

namespace ContentStore

/-- Phase of one file part's staging pipeline inside the upload handler. -/
inductive Phase where
  | writing
  | moving
  | committed
  | failedSink
  | failedMove
deriving DecidableEq

/-- One file part registered by the upload handler: its unique id (also
standing for the unique random temporary-file name), the client-supplied
filename, the full byte content of the part and its current phase. -/
structure PartRec where
  pid : Nat
  filename : String
  content : List Nat
  phase : Phase
deriving DecidableEq

/-- A response sent through `res.send` by the server. -/
inductive Resp where
  | success (status : Nat) (result : String) (files : List (String × String))
  | error (status : Nat)
deriving DecidableEq

/-- State of one `POST /upload` request handler, together with the shared
filesystem: `tmp` is the temp area (temporary-file name, keyed by part id,
to bytes written so far) and `store` is the storage directory (digest to
stored bytes). -/
structure UState where
  taskCounter : Int
  files : List (String × String)
  sent : List Resp
  parts : List PartRec
  tmp : List (Nat × List Nat)
  store : List (String × List Nat)
  closed : Bool
  pushOrder : List Nat
  commitOrder : List Nat
deriving DecidableEq

/-- Atomic events of the upload handler's event loop (see the module
docstring). -/
inductive Ev where
  | partEv (pid : Nat) (fn : Option String) (content : List Nat)
  | sinkFinish (pid : Nat)
  | sinkFail (pid : Nat) (written : List Nat)
  | moveDone (pid : Nat)
  | moveFail (pid : Nat)
  | closeEv
  | formError
deriving DecidableEq

/-- Full path of the content-addressed destination file:
`path.resolve(storageDir, basename)` of `src/index.js` lines 30-32. -/
def destFileName (storageDir basename : String) : String :=
  storageDir ++ "/" ++ basename

/-- The response `taskMinus` sends when the counter reaches zero
(`src/index.js` lines 99-113): 200 with result `no files to upload` when
the `files` list is empty, else 201 with result `upload OK`. -/
def mkAgg (files : List (String × String)) : Resp :=
  if files.length = 0 then Resp.success 200 "no files to upload" files
  else Resp.success 201 "upload OK" files

/-- The `taskMinus` closure of `src/index.js` lines 97-114: decrement the
counter and, exactly when it hits zero, send the aggregate response. -/
def taskMinus (s : UState) : UState :=
  let c := s.taskCounter - 1
  let s1 : UState := { s with taskCounter := c }
  if c = 0 then { s1 with sent := s1.sent ++ [mkAgg s1.files] } else s1

/-- The `onAnyError` closure of `src/index.js` lines 120-123: immediately
send a 500 `InternalServerError`. -/
def onAnyError (s : UState) : UState :=
  { s with sent := s.sent ++ [Resp.error 500] }

/-- Look up a registered part by id. -/
def findPart (s : UState) (pid : Nat) : Option PartRec :=
  s.parts.find? (fun p => p.pid == pid)

/-- Set the phase of the part with the given id. -/
def setPhase (parts : List PartRec) (pid : Nat) (ph : Phase) : List PartRec :=
  parts.map (fun p => if p.pid == pid then { p with phase := ph } else p)

/-- Overwrite the bytes of the temporary file with the given id. -/
def setTmp (tmp : List (Nat × List Nat)) (pid : Nat) (bs : List Nat) :
    List (Nat × List Nat) :=
  tmp.map (fun kv => if kv.1 == pid then (kv.1, bs) else kv)

/-- Remove the temporary file with the given id (this is what a completed
`fs.move` does to its source). -/
def removeTmp (tmp : List (Nat × List Nat)) (pid : Nat) : List (Nat × List Nat) :=
  tmp.filter (fun kv => kv.1 != pid)

/-- Store the given bytes under the given digest, overwriting any existing
object at that name (`fs.move(tmpFile, destFile, {overwrite: true})`). -/
def insertOverwrite (store : List (String × List Nat)) (k : String)
    (v : List Nat) : List (String × List Nat) :=
  store.filter (fun kv => kv.1 != k) ++ [(k, v)]

/-- One atomic step of the upload handler, as dispatched by the event loop
(`src/index.js` lines 125-164). -/
def step (hf : List Nat → String) (s : UState) (e : Ev) : UState :=
  match e with
  | Ev.partEv pid fn content =>
    match fn with
    | none => s
    | some name =>
      { s with
        taskCounter := s.taskCounter + 1
        parts := s.parts ++ [⟨pid, name, content, Phase.writing⟩]
        tmp := s.tmp ++ [(pid, [])] }
  | Ev.sinkFinish pid =>
    match findPart s pid with
    | some p =>
      { s with
        tmp := setTmp s.tmp pid p.content
        files := s.files ++ [(p.filename, hf p.content)]
        parts := setPhase s.parts pid Phase.moving
        pushOrder := s.pushOrder ++ [pid] }
    | none => s
  | Ev.sinkFail pid written =>
    match findPart s pid with
    | some _ =>
      onAnyError { s with
        tmp := setTmp s.tmp pid written
        parts := setPhase s.parts pid Phase.failedSink }
    | none => s
  | Ev.moveDone pid =>
    match findPart s pid with
    | some p =>
      taskMinus { s with
        store := insertOverwrite s.store (hf p.content) p.content
        tmp := removeTmp s.tmp pid
        parts := setPhase s.parts pid Phase.committed
        commitOrder := s.commitOrder ++ [pid] }
    | none => s
  | Ev.moveFail pid =>
    match findPart s pid with
    | some _ => onAnyError { s with parts := setPhase s.parts pid Phase.failedMove }
    | none => s
  | Ev.closeEv => taskMinus { s with closed := true }
  | Ev.formError => onAnyError s

/-- Whether an event can actually be dispatched in a given state: part ids
are fresh, multiparty emits all `'part'` events before `'close'`, a sink
can only finish or fail while its part is writing (and a failing sink has
received a prefix of the part's bytes), a rename can only resolve or
reject while its part is moving. -/
def enabledB (s : UState) : Ev → Bool
  | Ev.partEv pid _ _ => (findPart s pid).isNone && !s.closed
  | Ev.sinkFinish pid =>
    (findPart s pid).any (fun p => p.phase == Phase.writing)
  | Ev.sinkFail pid written =>
    (findPart s pid).any
      (fun p => p.phase == Phase.writing && written.isPrefixOf p.content)
  | Ev.moveDone pid => (findPart s pid).any (fun p => p.phase == Phase.moving)
  | Ev.moveFail pid => (findPart s pid).any (fun p => p.phase == Phase.moving)
  | Ev.closeEv => !s.closed
  | Ev.formError => true

/-- A trace is valid from a state when every event is enabled in the state
reached by the preceding ones. -/
def validFromB (hf : List Nat → String) (s : UState) : List Ev → Bool
  | [] => true
  | e :: es => enabledB s e && validFromB hf (step hf s e) es

/-- Handler state right after the synchronous body of the `POST /upload`
route ran: `taskPlus()` has registered the parsing task (counter 1), and
`store0` is whatever the storage directory held when the request began. -/
def initState (store0 : List (String × List Nat)) : UState :=
  { taskCounter := 1
    files := []
    sent := []
    parts := []
    tmp := []
    store := store0
    closed := false
    pushOrder := []
    commitOrder := [] }

/-- Run one upload request over a trace of events. -/
def runUpload (hf : List Nat → String) (store0 : List (String × List Nat))
    (tr : List Ev) : UState :=
  tr.foldl (step hf) (initState store0)

/-- The `(name, digest)` entry a part with the given id contributes to the
`files` list. -/
def entryOfParts (hf : List Nat → String) (parts : List PartRec) (pid : Nat) :
    String × String :=
  match parts.find? (fun p => p.pid == pid) with
  | some p => (p.filename, hf p.content)
  | none => ("", "")

/-- Phases of parts that have been pushed onto the `files` list. -/
def isPushed : Phase → Bool
  | Phase.moving => true
  | Phase.committed => true
  | Phase.failedMove => true
  | _ => false

/-- Phases of parts on which some step failed. -/
def isFailed : Phase → Bool
  | Phase.failedSink => true
  | Phase.failedMove => true
  | _ => false

/-- Whether a response is an aggregate (success) response produced by
`taskMinus`, as opposed to an error response. -/
def isSuccess : Resp → Bool
  | Resp.success _ _ _ => true
  | Resp.error _ => false

/-- Events on which `onAnyError` fires. -/
def isFailureEv : Ev → Bool
  | Ev.sinkFail _ _ => true
  | Ev.moveFail _ => true
  | Ev.formError => true
  | _ => false

/-- Number of registered parts that have not committed. -/
def notCommitted (s : UState) : Nat :=
  (s.parts.filter (fun p => p.phase != Phase.committed)).length

/-- Number of occurrences of a digest among the store's object names. -/
def countKey (store : List (String × List Nat)) (k : String) : Nat :=
  (store.map Prod.fst).count k

/-- Outcome of the `DELETE /:id` route, mirroring the restify error classes
used in `src/index.js` lines 55-79 (`ConflictError` is HTTP 409,
`NotFoundError` 404, `InternalServerError` 500). -/
inductive DelOutcome where
  | ok200
  | notFound404
  | conflict409
  | internal500
deriving DecidableEq

/-- The `server.del('/:id')` handler of `src/index.js` lines 55-79: check
`fs.pathExists`, then `fs.remove`; 200 on success, `ConflictError` when the
removal rejects after existence was confirmed, `NotFoundError` when the
object is absent, `InternalServerError` when the existence check itself
rejects.  The two booleans model the environment: whether `fs.pathExists`
rejects and whether `fs.remove` rejects. -/
def delRoute (store : List (String × List Nat)) (id : String)
    (existsCheckFails removeFails : Bool) :
    DelOutcome × List (String × List Nat) :=
  if existsCheckFails then (DelOutcome.internal500, store)
  else if (store.map Prod.fst).contains id then
    if removeFails then (DelOutcome.conflict409, store)
    else (DelOutcome.ok200, store.filter (fun kv => kv.1 != id))
  else (DelOutcome.notFound404, store)

/-- JavaScript value passed as the `createHash` argument of the
`ContentStore` constructor. -/
inductive JsValue where
  | undef
  | nullv
  | boolV (b : Bool)
  | numV (n : Int)
  | strV (s : String)
  | objV
  | funcV
deriving DecidableEq

/-- JavaScript falsiness, as tested by `!createHash`. -/
def falsy : JsValue → Bool
  | JsValue.undef => true
  | JsValue.nullv => true
  | JsValue.boolV b => !b
  | JsValue.numV n => n == 0
  | JsValue.strV str => str == ""
  | JsValue.objV => false
  | JsValue.funcV => false

/-- Whether `typeof createHash === 'function'`. -/
def isFunctionV : JsValue → Bool
  | JsValue.funcV => true
  | _ => false

/-- The `opts` argument of the `ContentStore` constructor: both fields are
optional and defaulted (`src/index.js` lines 18-22). -/
structure Opts where
  name : Option String
  storageDir : Option String
deriving DecidableEq

/-- Configuration after applying the constructor's defaults. -/
structure ServerCfg where
  name : String
  storageDir : String
deriving DecidableEq

/-- The argument validation and defaulting of the `ContentStore`
constructor (`src/index.js` lines 13-22): it throws
`TypeError('createHash should be a function')` when `createHash` is falsy
or not a function, and otherwise succeeds, applying the option defaults. -/
def contentStoreConstruct (opts : Opts) (createHash : JsValue) :
    Except String ServerCfg :=
  if falsy createHash || !(isFunctionV createHash) then
    Except.error "createHash should be a function"
  else
    Except.ok { name := opts.name.getD "content-store",
                storageDir := opts.storageDir.getD "data" }

/-- A concrete injectable hash strategy used to evaluate the model on
concrete traces. -/
def hfDemo : List Nat → String := fun _ => "h"

/-- Claim C3 as stated: a part on which staging or commit failed never has
its `(name, digest)` pair added to the request's result list. -/
def failedPartNeverInFiles : Prop :=
  ∀ (hf : List Nat → String) (store0 : List (String × List Nat)) (tr : List Ev),
    validFromB hf (initState store0) tr = true
    → ∀ p ∈ (runUpload hf store0 tr).parts, isFailed p.phase = true
    → (p.filename, hf p.content) ∉ (runUpload hf store0 tr).files

/-- Claim C4 as stated: the entries of the result list appear in the order
the parts' commits (renames) complete. -/
def filesInCommitOrder : Prop :=
  ∀ (hf : List Nat → String) (store0 : List (String × List Nat)) (tr : List Ev),
    validFromB hf (initState store0) tr = true
    → (runUpload hf store0 tr).files
        = (runUpload hf store0 tr).commitOrder.map
            (entryOfParts hf (runUpload hf store0 tr).parts)

/-- Claim C5's removal clause as stated: after a part fails, its uniquely
named temporary file has been removed. -/
def failedPartTmpRemoved : Prop :=
  ∀ (hf : List Nat → String) (store0 : List (String × List Nat)) (tr : List Ev),
    validFromB hf (initState store0) tr = true
    → ∀ p ∈ (runUpload hf store0 tr).parts, isFailed p.phase = true
    → p.pid ∉ (runUpload hf store0 tr).tmp.map Prod.fst

/-!
The main invariant of the upload handler, preserved along every valid
trace.  It ties the task counter to the set of uncommitted parts, the list
of sent responses to the counter, the `files` list to the parts pushed in
push order, and the filesystem (temp area and store) to the parts' phases.
-/

structure Inv (hf : List Nat → String) (store0 : List (String × List Nat))
    (s : UState) : Prop where
  counter_eq : s.taskCounter = (if s.closed then 0 else 1) + (notCommitted s : Int)
  agg_eq : s.sent.filter isSuccess
      = if s.taskCounter = 0 then [mkAgg s.files] else []
  pids_nodup : (s.parts.map PartRec.pid).Nodup
  files_eq : s.files = s.pushOrder.map (entryOfParts hf s.parts)
  push_iff : ∀ pid, pid ∈ s.pushOrder
      ↔ ∃ p ∈ s.parts, p.pid = pid ∧ isPushed p.phase = true
  store_nodup : (s.store.map Prod.fst).Nodup
  store_prov : ∀ kv ∈ s.store, kv ∈ store0
      ∨ ∃ p ∈ s.parts, p.phase = Phase.committed ∧ kv = (hf p.content, p.content)
  committed_in_store : ∀ p ∈ s.parts, p.phase = Phase.committed
      → hf p.content ∈ s.store.map Prod.fst
  leak : ∀ p ∈ s.parts, p.phase ≠ Phase.committed → p.pid ∈ s.tmp.map Prod.fst
  fail_sent : ∀ p ∈ s.parts, isFailed p.phase = true → Resp.error 500 ∈ s.sent


/-! Basic lemmas about the small filesystem and part-list operations. -/

theorem pid_setPhaseFun (q : Nat) (ph : Phase) (p : PartRec) :
    (if p.pid == q then { p with phase := ph } else p).pid = p.pid := by
  split <;> rfl

theorem setPhase_cons (r : PartRec) (rest : List PartRec) (pid : Nat) (ph : Phase) :
    setPhase (r :: rest) pid ph
      = (if r.pid == pid then { r with phase := ph } else r) :: setPhase rest pid ph := rfl

theorem setPhase_map_pid (parts : List PartRec) (q : Nat) (ph : Phase) :
    (setPhase parts q ph).map PartRec.pid = parts.map PartRec.pid := by
  unfold setPhase
  rw [List.map_map]
  exact List.map_congr_left fun p _ => pid_setPhaseFun q ph p

theorem find?_setPhase (parts : List PartRec) (q : Nat) (ph : Phase) (pid : Nat) :
    (setPhase parts q ph).find? (fun p => p.pid == pid)
      = (parts.find? (fun p => p.pid == pid)).map
          (fun p => if p.pid == q then { p with phase := ph } else p) := by
  unfold setPhase
  have hp : ((fun p : PartRec => p.pid == pid)
        ∘ (fun p => if p.pid == q then { p with phase := ph } else p))
      = (fun p : PartRec => p.pid == pid) := by
    funext p
    show ((if p.pid == q then { p with phase := ph } else p).pid == pid)
      = (p.pid == pid)
    rw [pid_setPhaseFun]
  rw [List.find?_map, hp]

theorem entryOfParts_setPhase (hf : List Nat → String) (parts : List PartRec)
    (q : Nat) (ph : Phase) (pid : Nat) :
    entryOfParts hf (setPhase parts q ph) pid = entryOfParts hf parts pid := by
  unfold entryOfParts
  rw [find?_setPhase]
  cases h : parts.find? (fun p => p.pid == pid) with
  | none => rfl
  | some p =>
    simp only [Option.map_some']
    split <;> rfl

theorem find?_append_left {α : Type} {l1 l2 : List α} {p : α → Bool} {a : α}
    (h : l1.find? p = some a) : (l1 ++ l2).find? p = some a := by
  rw [List.find?_append, h]
  rfl

theorem findPart_mem {s : UState} {pid : Nat} {p : PartRec}
    (h : findPart s pid = some p) : p ∈ s.parts ∧ p.pid = pid := by
  refine ⟨List.mem_of_find?_eq_some h, ?_⟩
  have hb := List.find?_some h
  simpa using hb

theorem find?_pid_isSome_of_mem {parts : List PartRec} {pid : Nat}
    (h : ∃ p ∈ parts, p.pid = pid) :
    (parts.find? (fun p => p.pid == pid)).isSome = true := by
  rw [List.find?_isSome]
  obtain ⟨p, hp, he⟩ := h
  exact ⟨p, hp, by simpa using he⟩

theorem part_unique {parts : List PartRec} (hN : (parts.map PartRec.pid).Nodup)
    {p q : PartRec} (hp : p ∈ parts) (hq : q ∈ parts) (h : p.pid = q.pid) :
    p = q :=
  List.inj_on_of_nodup_map hN hp hq h

theorem setPhase_eq_of_not_mem {parts : List PartRec} {pid : Nat}
    (h : ∀ q ∈ parts, q.pid ≠ pid) (ph : Phase) : setPhase parts pid ph = parts := by
  unfold setPhase
  conv_rhs => rw [← List.map_id parts]
  refine List.map_congr_left fun a ha => ?_
  have hb : (a.pid == pid) = false := by simpa using h a ha
  simp [hb]

theorem setTmp_map_fst (tmp : List (Nat × List Nat)) (pid : Nat) (bs : List Nat) :
    (setTmp tmp pid bs).map Prod.fst = tmp.map Prod.fst := by
  unfold setTmp
  rw [List.map_map]
  refine List.map_congr_left fun kv _ => ?_
  simp only [Function.comp]
  split <;> rfl

theorem mem_removeTmp {tmp : List (Nat × List Nat)} {pid m : Nat}
    (hm : m ∈ tmp.map Prod.fst) (hne : m ≠ pid) :
    m ∈ (removeTmp tmp pid).map Prod.fst := by
  unfold removeTmp
  rw [List.mem_map] at hm ⊢
  obtain ⟨kv, hkv, rfl⟩ := hm
  exact ⟨kv, List.mem_filter.2 ⟨hkv, by simpa using hne⟩, rfl⟩

theorem filter_fst_map_fst (store : List (String × List Nat)) (k : String) :
    (store.filter (fun kv => kv.1 != k)).map Prod.fst
      = (store.map Prod.fst).filter (fun x => x != k) := by
  induction store with
  | nil => rfl
  | cons kv rest ih =>
    by_cases h : kv.1 = k
    · simp [List.filter_cons, h, ih]
    · have hb : (kv.1 != k) = true := by simpa using h
      simp [List.filter_cons, hb, ih]

theorem insertOverwrite_map_fst (store : List (String × List Nat)) (k : String)
    (v : List Nat) :
    (insertOverwrite store k v).map Prod.fst
      = (store.map Prod.fst).filter (fun x => x != k) ++ [k] := by
  unfold insertOverwrite
  rw [List.map_append, filter_fst_map_fst]
  rfl

theorem mem_insertOverwrite_fst {store : List (String × List Nat)} {k m : String}
    {v : List Nat} (hm : m ∈ store.map Prod.fst) :
    m ∈ (insertOverwrite store k v).map Prod.fst := by
  rw [insertOverwrite_map_fst]
  by_cases h : m = k
  · subst h
    simp
  · exact List.mem_append_left _ (List.mem_filter.2 ⟨hm, by simpa using h⟩)

theorem insertOverwrite_nodup {store : List (String × List Nat)} {k : String}
    {v : List Nat} (h : (store.map Prod.fst).Nodup) :
    ((insertOverwrite store k v).map Prod.fst).Nodup := by
  rw [insertOverwrite_map_fst, List.nodup_append]
  refine ⟨h.filter _, List.nodup_singleton k, ?_⟩
  intro x hx hk
  rw [List.mem_singleton] at hk
  subst hk
  have hxx := (List.mem_filter.1 hx).2
  simp at hxx

theorem mem_insertOverwrite {store : List (String × List Nat)} {k : String}
    {v : List Nat} {kv : String × List Nat} (h : kv ∈ insertOverwrite store k v) :
    kv ∈ store ∨ kv = (k, v) := by
  unfold insertOverwrite at h
  rcases List.mem_append.1 h with h | h
  · exact Or.inl (List.mem_filter.1 h).1
  · rw [List.mem_singleton] at h
    exact Or.inr h

theorem notCommitted_setPhase_noop (parts : List PartRec) (pid : Nat) (ph : Phase)
    (hph : ph ≠ Phase.committed)
    (h : ∀ q ∈ parts, q.pid = pid → q.phase ≠ Phase.committed) :
    ((setPhase parts pid ph).filter (fun p => p.phase != Phase.committed)).length
      = (parts.filter (fun p => p.phase != Phase.committed)).length := by
  induction parts with
  | nil => rfl
  | cons r rest ih =>
    have hrest := fun q hq => h q (List.mem_cons_of_mem r hq)
    rw [setPhase_cons]
    by_cases hr : r.pid = pid
    · have hb : (r.pid == pid) = true := by simpa using hr
      have hnc : r.phase ≠ Phase.committed := h r (List.mem_cons_self _ _) hr
      simp only [hb, if_true, List.filter_cons]
      have h1 : (({ r with phase := ph } : PartRec).phase != Phase.committed) = true := by
        simpa using hph
      have h2 : (r.phase != Phase.committed) = true := by simpa using hnc
      simp [h1, h2, ih hrest]
    · have hb : (r.pid == pid) = false := by simpa using hr
      simp only [hb, if_false, List.filter_cons]
      by_cases hc : r.phase = Phase.committed
      · simp [hc, ih hrest]
      · have h2 : (r.phase != Phase.committed) = true := by simpa using hc
        simp [h2, ih hrest]

theorem notCommitted_setPhase_commit {parts : List PartRec} {pid : Nat} {p : PartRec}
    (hN : (parts.map PartRec.pid).Nodup)
    (hfind : parts.find? (fun r => r.pid == pid) = some p)
    (hp : p.phase ≠ Phase.committed) :
    ((setPhase parts pid Phase.committed).filter
        (fun r => r.phase != Phase.committed)).length + 1
      = (parts.filter (fun r => r.phase != Phase.committed)).length := by
  induction parts with
  | nil => cases hfind
  | cons r rest ih =>
    rw [setPhase_cons]
    by_cases hr : r.pid = pid
    · have hb : (r.pid == pid) = true := by simpa using hr
      have hpr : p = r := by
        rw [@List.find?_cons_of_pos _ (fun q => q.pid == pid) r rest hb] at hfind
        exact (Option.some_inj.1 hfind).symm
      subst hpr
      have hpid_not : ∀ q ∈ rest, q.pid ≠ pid := by
        intro q hq he
        have : pid ∈ rest.map PartRec.pid := List.mem_map.2 ⟨q, hq, he⟩
        rw [List.map_cons] at hN
        rw [← hr] at this
        exact (List.nodup_cons.1 hN).1 this
      rw [setPhase_eq_of_not_mem hpid_not]
      simp only [hb, if_true, List.filter_cons]
      have h1 : (({ p with phase := Phase.committed } : PartRec).phase
          != Phase.committed) = false := by simp
      have h2 : (p.phase != Phase.committed) = true := by simpa using hp
      simp [h1, h2, Nat.add_comm]
    · have hb : (r.pid == pid) = false := by simpa using hr
      rw [@List.find?_cons_of_neg _ (fun q => q.pid == pid) r rest (by simp [hb])]
        at hfind
      have hN' : (rest.map PartRec.pid).Nodup := by
        rw [List.map_cons] at hN
        exact (List.nodup_cons.1 hN).2
      have hhead : (if r.pid == pid then { r with phase := Phase.committed } else r)
          = r := by
        simp [hb]
      rw [hhead]
      simp only [List.filter_cons]
      by_cases hc : r.phase = Phase.committed
      · simp [hc, ih hN' hfind]
      · have h2 : (r.phase != Phase.committed) = true := by simpa using hc
        simp only [h2, if_true, List.length_cons]
        rw [← ih hN' hfind]

theorem validFromB_append (hf : List Nat → String) (s : UState) (l1 l2 : List Ev) :
    validFromB hf s (l1 ++ l2)
      = (validFromB hf s l1 && validFromB hf (l1.foldl (step hf) s) l2) := by
  induction l1 generalizing s with
  | nil => simp [validFromB]
  | cons e es ih =>
    simp [validFromB, ih, Bool.and_assoc]

theorem entryOfParts_append_of_mem {hf : List Nat → String} {parts l2 : List PartRec}
    {pid : Nat} (h : ∃ p ∈ parts, p.pid = pid) :
    entryOfParts hf (parts ++ l2) pid = entryOfParts hf parts pid := by
  unfold entryOfParts
  have hs := find?_pid_isSome_of_mem h
  cases hfind : parts.find? (fun p => p.pid == pid) with
  | none =>
    rw [hfind] at hs
    cases hs
  | some a =>
    rw [find?_append_left hfind]

theorem inv_init (hf : List Nat → String) (store0 : List (String × List Nat))
    (h0 : (store0.map Prod.fst).Nodup) : Inv hf store0 (initState store0) := by
  refine ⟨?_, ?_, ?_, ?_, ?_, ?_, ?_, ?_, ?_, ?_⟩ <;>
    simp [initState, notCommitted, h0]

theorem notCommitted_pos_of_mem {s : UState} {p : PartRec} (hp : p ∈ s.parts)
    (h : p.phase ≠ Phase.committed) : 0 < notCommitted s := by
  unfold notCommitted
  have hmem : p ∈ s.parts.filter (fun q => q.phase != Phase.committed) :=
    List.mem_filter.2 ⟨hp, by simpa using h⟩
  exact List.length_pos.2 (List.ne_nil_of_mem hmem)

theorem counter_ne_zero_of_notCommitted_pos {hf : List Nat → String}
    {store0 : List (String × List Nat)} {s : UState} (hI : Inv hf store0 s)
    (h : 0 < notCommitted s) : s.taskCounter ≠ 0 := by
  rw [hI.counter_eq]
  split <;> omega

theorem counter_ne_zero_of_not_closed {hf : List Nat → String}
    {store0 : List (String × List Nat)} {s : UState} (hI : Inv hf store0 s)
    (h : s.closed = false) : s.taskCounter ≠ 0 := by
  rw [hI.counter_eq, h]
  simp only [Bool.false_eq_true, if_false]
  omega

theorem inv_step_partEv {hf : List Nat → String} {store0 : List (String × List Nat)}
    {s : UState} (pid : Nat) (fn : Option String) (content : List Nat)
    (hI : Inv hf store0 s)
    (he : enabledB s (Ev.partEv pid fn content) = true) :
    Inv hf store0 (step hf s (Ev.partEv pid fn content)) := by
  cases fn with
  | none => simpa only [step] using hI
  | some name =>
    simp only [enabledB, Bool.and_eq_true, Option.isNone_iff_eq_none,
      Bool.not_eq_true'] at he
    obtain ⟨hfresh, hcl⟩ := he
    have hnotmem : ∀ q ∈ s.parts, q.pid ≠ pid := by
      intro q hq
      have := List.find?_eq_none.1 hfresh q hq
      simpa using this
    have hct : s.taskCounter ≠ 0 := counter_ne_zero_of_not_closed hI hcl
    simp only [step]
    refine ⟨?_, ?_, ?_, ?_, ?_, ?_, ?_, ?_, ?_, ?_⟩
    · show s.taskCounter + 1
        = (if s.closed then 0 else 1)
          + ((((s.parts ++ [PartRec.mk pid name content Phase.writing]).filter
              (fun p => p.phase != Phase.committed)).length : Nat) : Int)
      rw [List.filter_append]
      have hc := hI.counter_eq
      rw [hcl] at hc ⊢
      simp only [Bool.false_eq_true, if_false] at hc ⊢
      have hw : (((PartRec.mk pid name content Phase.writing).phase
          != Phase.committed) = true) := by rfl
      simp only [List.filter_cons, List.filter_nil, hw, if_true,
        List.length_append, List.length_cons, List.length_nil]
      unfold notCommitted at hc
      push_cast
      omega
    · show (s.sent.filter isSuccess) = if s.taskCounter + 1 = 0 then _ else []
      have h1 : s.taskCounter + 1 ≠ 0 := by
        have hc := hI.counter_eq
        rw [hcl] at hc
        simp only [Bool.false_eq_true, if_false] at hc
        omega
      rw [if_neg h1]
      have := hI.agg_eq
      rw [if_neg hct] at this
      exact this
    · show ((s.parts ++ [PartRec.mk pid name content Phase.writing]).map PartRec.pid).Nodup
      rw [List.map_append, List.nodup_append]
      refine ⟨hI.pids_nodup, by simp, ?_⟩
      intro x hx hmem
      simp only [List.map_cons, List.map_nil, List.mem_singleton] at hmem
      subst hmem
      obtain ⟨q, hq, hqe⟩ := List.mem_map.1 hx
      exact hnotmem q hq hqe
    · show s.files = s.pushOrder.map
        (entryOfParts hf (s.parts ++ [PartRec.mk pid name content Phase.writing]))
      rw [hI.files_eq]
      refine (List.map_congr_left fun pid' hp' => ?_).symm
      have hex := (hI.push_iff pid').1 hp'
      obtain ⟨q, hq, hqe, _⟩ := hex
      exact entryOfParts_append_of_mem ⟨q, hq, hqe⟩
    · intro pid'
      rw [hI.push_iff pid']
      constructor
      · rintro ⟨q, hq, hqe, hqp⟩
        exact ⟨q, List.mem_append_left _ hq, hqe, hqp⟩
      · rintro ⟨q, hq, hqe, hqp⟩
        rcases List.mem_append.1 hq with hq | hq
        · exact ⟨q, hq, hqe, hqp⟩
        · rw [List.mem_singleton] at hq
          subst hq
          cases hqp
    · exact hI.store_nodup
    · intro kv hkv
      rcases hI.store_prov kv hkv with h | ⟨q, hq, hqc, hqe⟩
      · exact Or.inl h
      · exact Or.inr ⟨q, List.mem_append_left _ hq, hqc, hqe⟩
    · intro q hq hqc
      rcases List.mem_append.1 hq with hq | hq
      · exact hI.committed_in_store q hq hqc
      · rw [List.mem_singleton] at hq
        subst hq
        cases hqc
    · intro q hq hqc
      rw [List.map_append]
      rcases List.mem_append.1 hq with hq | hq
      · exact List.mem_append_left _ (hI.leak q hq hqc)
      · rw [List.mem_singleton] at hq
        subst hq
        simp
    · intro q hq hqf
      rcases List.mem_append.1 hq with hq | hq
      · exact hI.fail_sent q hq hqf
      · rw [List.mem_singleton] at hq
        subst hq
        cases hqf

theorem mem_setPhase_self {parts : List PartRec} {q : PartRec} (hq : q ∈ parts)
    {pid : Nat} (hne : q.pid ≠ pid) (ph : Phase) : q ∈ setPhase parts pid ph := by
  unfold setPhase
  have hb : (q.pid == pid) = false := by simpa using hne
  have heq : (if q.pid == pid then { q with phase := ph } else q) = q := by
    simp [hb]
  exact heq ▸ List.mem_map_of_mem _ hq

theorem mem_setPhase_hit {parts : List PartRec} {q : PartRec} (hq : q ∈ parts)
    {pid : Nat} (he : q.pid = pid) (ph : Phase) :
    { q with phase := ph } ∈ setPhase parts pid ph := by
  unfold setPhase
  have hb : (q.pid == pid) = true := by simpa using he
  have heq : (if q.pid == pid then { q with phase := ph } else q)
      = { q with phase := ph } := by
    simp [hb]
  exact heq ▸ List.mem_map_of_mem _ hq

theorem mem_setPhase_elim {parts : List PartRec} {pid : Nat} {ph : Phase}
    {q1 : PartRec} (h : q1 ∈ setPhase parts pid ph) :
    ∃ q ∈ parts, q1 = if q.pid == pid then { q with phase := ph } else q := by
  unfold setPhase at h
  obtain ⟨q, hq, hqe⟩ := List.mem_map.1 h
  exact ⟨q, hq, hqe.symm⟩

theorem inv_step_sinkFinish {hf : List Nat → String}
    {store0 : List (String × List Nat)} {s : UState} (pid : Nat)
    (hI : Inv hf store0 s) (he : enabledB s (Ev.sinkFinish pid) = true) :
    Inv hf store0 (step hf s (Ev.sinkFinish pid)) := by
  cases hfind : findPart s pid with
  | none => simp [enabledB, hfind, Option.any] at he
  | some p =>
    have hph : p.phase = Phase.writing := by
      simp [enabledB, hfind, Option.any] at he
      simpa using he
    obtain ⟨hpmem, hppid⟩ := findPart_mem hfind
    have hnc : p.phase ≠ Phase.committed := by
      rw [hph]
      intro hx
      cases hx
    have hct : s.taskCounter ≠ 0 :=
      counter_ne_zero_of_notCommitted_pos hI (notCommitted_pos_of_mem hpmem hnc)
    have huniq : ∀ q ∈ s.parts, q.pid = pid → q = p := fun q hq he' =>
      part_unique hI.pids_nodup hq hpmem (by rw [he', hppid])
    have hsame : ∀ q ∈ s.parts, q.pid = pid → q.phase ≠ Phase.committed :=
      fun q hq he' => (huniq q hq he') ▸ hnc
    have hfind' : s.parts.find? (fun q => q.pid == pid) = some p := hfind
    simp only [step, hfind]
    refine ⟨?_, ?_, ?_, ?_, ?_, ?_, ?_, ?_, ?_, ?_⟩
    · show s.taskCounter = (if s.closed then 0 else 1)
        + (((setPhase s.parts pid Phase.moving).filter
            (fun q => q.phase != Phase.committed)).length : Int)
      rw [notCommitted_setPhase_noop _ _ _ (by intro hx; cases hx) hsame]
      exact hI.counter_eq
    · show s.sent.filter isSuccess = if s.taskCounter = 0 then _ else []
      rw [if_neg hct]
      have ha := hI.agg_eq
      rw [if_neg hct] at ha
      exact ha
    · show ((setPhase s.parts pid Phase.moving).map PartRec.pid).Nodup
      rw [setPhase_map_pid]
      exact hI.pids_nodup
    · show s.files ++ [(p.filename, hf p.content)]
        = (s.pushOrder ++ [pid]).map
            (entryOfParts hf (setPhase s.parts pid Phase.moving))
      have hent : entryOfParts hf (setPhase s.parts pid Phase.moving)
          = entryOfParts hf s.parts := by
        funext pid'
        exact entryOfParts_setPhase hf s.parts pid Phase.moving pid'
      rw [List.map_append, hent, ← hI.files_eq]
      have hpe : entryOfParts hf s.parts pid = (p.filename, hf p.content) := by
        unfold entryOfParts
        rw [hfind']
      simp [hpe]
    · intro pid'
      constructor
      · intro hmem
        rcases List.mem_append.1 hmem with hmem | hmem
        · obtain ⟨q, hq, hqe, hqp⟩ := (hI.push_iff pid').1 hmem
          by_cases hcase : q.pid = pid
          · refine ⟨{ q with phase := Phase.moving }, mem_setPhase_hit hq hcase _,
              hqe, rfl⟩
          · exact ⟨q, mem_setPhase_self hq hcase _, hqe, hqp⟩
        · rw [List.mem_singleton] at hmem
          subst hmem
          exact ⟨{ p with phase := Phase.moving }, mem_setPhase_hit hpmem hppid _,
            hppid, rfl⟩
      · rintro ⟨q1, hq1, hq1e, hq1p⟩
        obtain ⟨q, hq, hqe⟩ := mem_setPhase_elim hq1
        by_cases hcase : q.pid = pid
        · have hb : (q.pid == pid) = true := by simpa using hcase
          rw [if_pos hb] at hqe
          subst hqe
          apply List.mem_append_right
          rw [List.mem_singleton]
          rw [← hq1e]
          exact hcase
        · have hb : (q.pid == pid) = false := by simpa using hcase
          rw [hb] at hqe
          simp only [Bool.false_eq_true, if_false] at hqe
          subst hqe
          exact List.mem_append_left _
            ((hI.push_iff pid').2 ⟨q1, hq, hq1e, hq1p⟩)
    · exact hI.store_nodup
    · intro kv hkv
      rcases hI.store_prov kv hkv with h | ⟨q, hq, hqc, hqe⟩
      · exact Or.inl h
      · have hqpid : q.pid ≠ pid := by
          intro hx
          exact hnc ((huniq q hq hx) ▸ hqc)
        exact Or.inr ⟨q, mem_setPhase_self hq hqpid _, hqc, hqe⟩
    · intro q1 hq1 hq1c
      obtain ⟨q, hq, hqe⟩ := mem_setPhase_elim hq1
      by_cases hcase : q.pid = pid
      · have hb : (q.pid == pid) = true := by simpa using hcase
        rw [if_pos hb] at hqe
        subst hqe
        cases hq1c
      · have hb : (q.pid == pid) = false := by simpa using hcase
        rw [hb] at hqe
        simp only [Bool.false_eq_true, if_false] at hqe
        subst hqe
        exact hI.committed_in_store q1 hq hq1c
    · intro q1 hq1 hq1c
      rw [setTmp_map_fst]
      obtain ⟨q, hq, hqe⟩ := mem_setPhase_elim hq1
      by_cases hcase : q.pid = pid
      · have hb : (q.pid == pid) = true := by simpa using hcase
        rw [if_pos hb] at hqe
        subst hqe
        show q.pid ∈ s.tmp.map Prod.fst
        exact hI.leak q hq ((huniq q hq hcase) ▸ hnc)
      · have hb : (q.pid == pid) = false := by simpa using hcase
        rw [hb] at hqe
        simp only [Bool.false_eq_true, if_false] at hqe
        subst hqe
        exact hI.leak q1 hq hq1c
    · intro q1 hq1 hq1f
      obtain ⟨q, hq, hqe⟩ := mem_setPhase_elim hq1
      by_cases hcase : q.pid = pid
      · have hb : (q.pid == pid) = true := by simpa using hcase
        rw [if_pos hb] at hqe
        subst hqe
        cases hq1f
      · have hb : (q.pid == pid) = false := by simpa using hcase
        rw [hb] at hqe
        simp only [Bool.false_eq_true, if_false] at hqe
        subst hqe
        exact hI.fail_sent q1 hq hq1f

theorem inv_step_sinkFail {hf : List Nat → String}
    {store0 : List (String × List Nat)} {s : UState} (pid : Nat)
    (written : List Nat) (hI : Inv hf store0 s)
    (he : enabledB s (Ev.sinkFail pid written) = true) :
    Inv hf store0 (step hf s (Ev.sinkFail pid written)) := by
  cases hfind : findPart s pid with
  | none => simp [enabledB, hfind, Option.any] at he
  | some p =>
    have hph : p.phase = Phase.writing := by
      simp [enabledB, hfind, Option.any] at he
      exact he.1
    obtain ⟨hpmem, hppid⟩ := findPart_mem hfind
    have hnc : p.phase ≠ Phase.committed := by
      rw [hph]
      intro hx
      cases hx
    have hct : s.taskCounter ≠ 0 :=
      counter_ne_zero_of_notCommitted_pos hI (notCommitted_pos_of_mem hpmem hnc)
    have huniq : ∀ q ∈ s.parts, q.pid = pid → q = p := fun q hq he' =>
      part_unique hI.pids_nodup hq hpmem (by rw [he', hppid])
    have hsame : ∀ q ∈ s.parts, q.pid = pid → q.phase ≠ Phase.committed :=
      fun q hq he' => (huniq q hq he') ▸ hnc
    simp only [step, hfind, onAnyError]
    refine ⟨?_, ?_, ?_, ?_, ?_, ?_, ?_, ?_, ?_, ?_⟩
    · show s.taskCounter = (if s.closed then 0 else 1)
        + (((setPhase s.parts pid Phase.failedSink).filter
            (fun q => q.phase != Phase.committed)).length : Int)
      rw [notCommitted_setPhase_noop _ _ _ (by intro hx; cases hx) hsame]
      exact hI.counter_eq
    · show (s.sent ++ [Resp.error 500]).filter isSuccess
        = if s.taskCounter = 0 then _ else []
      rw [if_neg hct, List.filter_append]
      have h500 : [Resp.error 500].filter isSuccess = [] := rfl
      rw [h500, List.append_nil]
      have ha := hI.agg_eq
      rw [if_neg hct] at ha
      exact ha
    · show ((setPhase s.parts pid Phase.failedSink).map PartRec.pid).Nodup
      rw [setPhase_map_pid]
      exact hI.pids_nodup
    · show s.files = s.pushOrder.map
        (entryOfParts hf (setPhase s.parts pid Phase.failedSink))
      have hent : entryOfParts hf (setPhase s.parts pid Phase.failedSink)
          = entryOfParts hf s.parts := by
        funext pid'
        exact entryOfParts_setPhase hf s.parts pid Phase.failedSink pid'
      rw [hent]
      exact hI.files_eq
    · intro pid'
      constructor
      · intro hmem
        obtain ⟨q, hq, hqe, hqp⟩ := (hI.push_iff pid').1 hmem
        by_cases hcase : q.pid = pid
        · have : q = p := huniq q hq hcase
          subst this
          rw [hph] at hqp
          cases hqp
        · exact ⟨q, mem_setPhase_self hq hcase _, hqe, hqp⟩
      · rintro ⟨q1, hq1, hq1e, hq1p⟩
        obtain ⟨q, hq, hqe⟩ := mem_setPhase_elim hq1
        by_cases hcase : q.pid = pid
        · have hb : (q.pid == pid) = true := by simpa using hcase
          rw [if_pos hb] at hqe
          subst hqe
          cases hq1p
        · have hb : (q.pid == pid) = false := by simpa using hcase
          rw [hb] at hqe
          simp only [Bool.false_eq_true, if_false] at hqe
          subst hqe
          exact (hI.push_iff pid').2 ⟨q1, hq, hq1e, hq1p⟩
    · exact hI.store_nodup
    · intro kv hkv
      rcases hI.store_prov kv hkv with h | ⟨q, hq, hqc, hqe⟩
      · exact Or.inl h
      · have hqpid : q.pid ≠ pid := by
          intro hx
          exact hnc ((huniq q hq hx) ▸ hqc)
        exact Or.inr ⟨q, mem_setPhase_self hq hqpid _, hqc, hqe⟩
    · intro q1 hq1 hq1c
      obtain ⟨q, hq, hqe⟩ := mem_setPhase_elim hq1
      by_cases hcase : q.pid = pid
      · have hb : (q.pid == pid) = true := by simpa using hcase
        rw [if_pos hb] at hqe
        subst hqe
        cases hq1c
      · have hb : (q.pid == pid) = false := by simpa using hcase
        rw [hb] at hqe
        simp only [Bool.false_eq_true, if_false] at hqe
        subst hqe
        exact hI.committed_in_store q1 hq hq1c
    · intro q1 hq1 hq1c
      rw [setTmp_map_fst]
      obtain ⟨q, hq, hqe⟩ := mem_setPhase_elim hq1
      by_cases hcase : q.pid = pid
      · have hb : (q.pid == pid) = true := by simpa using hcase
        rw [if_pos hb] at hqe
        subst hqe
        show q.pid ∈ s.tmp.map Prod.fst
        exact hI.leak q hq ((huniq q hq hcase) ▸ hnc)
      · have hb : (q.pid == pid) = false := by simpa using hcase
        rw [hb] at hqe
        simp only [Bool.false_eq_true, if_false] at hqe
        subst hqe
        exact hI.leak q1 hq hq1c
    · intro q1 hq1 hq1f
      obtain ⟨q, hq, hqe⟩ := mem_setPhase_elim hq1
      by_cases hcase : q.pid = pid
      · apply List.mem_append_right
        simp
      · have hb : (q.pid == pid) = false := by simpa using hcase
        rw [hb] at hqe
        simp only [Bool.false_eq_true, if_false] at hqe
        subst hqe
        exact List.mem_append_left _ (hI.fail_sent q1 hq hq1f)

theorem inv_step_moveFail {hf : List Nat → String}
    {store0 : List (String × List Nat)} {s : UState} (pid : Nat)
    (hI : Inv hf store0 s) (he : enabledB s (Ev.moveFail pid) = true) :
    Inv hf store0 (step hf s (Ev.moveFail pid)) := by
  cases hfind : findPart s pid with
  | none => simp [enabledB, hfind, Option.any] at he
  | some p =>
    have hph : p.phase = Phase.moving := by
      simp [enabledB, hfind, Option.any] at he
      simpa using he
    obtain ⟨hpmem, hppid⟩ := findPart_mem hfind
    have hnc : p.phase ≠ Phase.committed := by
      rw [hph]
      intro hx
      cases hx
    have hct : s.taskCounter ≠ 0 :=
      counter_ne_zero_of_notCommitted_pos hI (notCommitted_pos_of_mem hpmem hnc)
    have huniq : ∀ q ∈ s.parts, q.pid = pid → q = p := fun q hq he' =>
      part_unique hI.pids_nodup hq hpmem (by rw [he', hppid])
    have hsame : ∀ q ∈ s.parts, q.pid = pid → q.phase ≠ Phase.committed :=
      fun q hq he' => (huniq q hq he') ▸ hnc
    simp only [step, hfind, onAnyError]
    refine ⟨?_, ?_, ?_, ?_, ?_, ?_, ?_, ?_, ?_, ?_⟩
    · show s.taskCounter = (if s.closed then 0 else 1)
        + (((setPhase s.parts pid Phase.failedMove).filter
            (fun q => q.phase != Phase.committed)).length : Int)
      rw [notCommitted_setPhase_noop _ _ _ (by intro hx; cases hx) hsame]
      exact hI.counter_eq
    · show (s.sent ++ [Resp.error 500]).filter isSuccess
        = if s.taskCounter = 0 then _ else []
      rw [if_neg hct, List.filter_append]
      have h500 : [Resp.error 500].filter isSuccess = [] := rfl
      rw [h500, List.append_nil]
      have ha := hI.agg_eq
      rw [if_neg hct] at ha
      exact ha
    · show ((setPhase s.parts pid Phase.failedMove).map PartRec.pid).Nodup
      rw [setPhase_map_pid]
      exact hI.pids_nodup
    · show s.files = s.pushOrder.map
        (entryOfParts hf (setPhase s.parts pid Phase.failedMove))
      have hent : entryOfParts hf (setPhase s.parts pid Phase.failedMove)
          = entryOfParts hf s.parts := by
        funext pid'
        exact entryOfParts_setPhase hf s.parts pid Phase.failedMove pid'
      rw [hent]
      exact hI.files_eq
    · intro pid'
      constructor
      · intro hmem
        obtain ⟨q, hq, hqe, hqp⟩ := (hI.push_iff pid').1 hmem
        by_cases hcase : q.pid = pid
        · refine ⟨{ q with phase := Phase.failedMove },
            mem_setPhase_hit hq hcase _, hqe, rfl⟩
        · exact ⟨q, mem_setPhase_self hq hcase _, hqe, hqp⟩
      · rintro ⟨q1, hq1, hq1e, hq1p⟩
        obtain ⟨q, hq, hqe⟩ := mem_setPhase_elim hq1
        by_cases hcase : q.pid = pid
        · have hqp2 : q = p := huniq q hq hcase
          subst hqp2
          have hb : (q.pid == pid) = true := by simpa using hcase
          rw [if_pos hb] at hqe
          subst hqe
          refine (hI.push_iff pid').2 ⟨q, hq, hq1e, ?_⟩
          rw [hph]
          rfl
        · have hb : (q.pid == pid) = false := by simpa using hcase
          rw [hb] at hqe
          simp only [Bool.false_eq_true, if_false] at hqe
          subst hqe
          exact (hI.push_iff pid').2 ⟨q1, hq, hq1e, hq1p⟩
    · exact hI.store_nodup
    · intro kv hkv
      rcases hI.store_prov kv hkv with h | ⟨q, hq, hqc, hqe⟩
      · exact Or.inl h
      · have hqpid : q.pid ≠ pid := by
          intro hx
          exact hnc ((huniq q hq hx) ▸ hqc)
        exact Or.inr ⟨q, mem_setPhase_self hq hqpid _, hqc, hqe⟩
    · intro q1 hq1 hq1c
      obtain ⟨q, hq, hqe⟩ := mem_setPhase_elim hq1
      by_cases hcase : q.pid = pid
      · have hb : (q.pid == pid) = true := by simpa using hcase
        rw [if_pos hb] at hqe
        subst hqe
        cases hq1c
      · have hb : (q.pid == pid) = false := by simpa using hcase
        rw [hb] at hqe
        simp only [Bool.false_eq_true, if_false] at hqe
        subst hqe
        exact hI.committed_in_store q1 hq hq1c
    · intro q1 hq1 hq1c
      obtain ⟨q, hq, hqe⟩ := mem_setPhase_elim hq1
      by_cases hcase : q.pid = pid
      · have hb : (q.pid == pid) = true := by simpa using hcase
        rw [if_pos hb] at hqe
        subst hqe
        show q.pid ∈ s.tmp.map Prod.fst
        exact hI.leak q hq ((huniq q hq hcase) ▸ hnc)
      · have hb : (q.pid == pid) = false := by simpa using hcase
        rw [hb] at hqe
        simp only [Bool.false_eq_true, if_false] at hqe
        subst hqe
        exact hI.leak q1 hq hq1c
    · intro q1 hq1 hq1f
      obtain ⟨q, hq, hqe⟩ := mem_setPhase_elim hq1
      by_cases hcase : q.pid = pid
      · apply List.mem_append_right
        simp
      · have hb : (q.pid == pid) = false := by simpa using hcase
        rw [hb] at hqe
        simp only [Bool.false_eq_true, if_false] at hqe
        subst hqe
        exact List.mem_append_left _ (hI.fail_sent q1 hq hq1f)

theorem isSuccess_mkAgg (files : List (String × String)) :
    isSuccess (mkAgg files) = true := by
  unfold mkAgg
  split <;> rfl

theorem inv_taskMinus {hf : List Nat → String} {store0 : List (String × List Nat)}
    {s1 : UState}
    (hcounter : s1.taskCounter
      = (if s1.closed then 0 else 1) + (notCommitted s1 : Int) + 1)
    (hagg : s1.sent.filter isSuccess = [])
    (hpids : (s1.parts.map PartRec.pid).Nodup)
    (hfiles : s1.files = s1.pushOrder.map (entryOfParts hf s1.parts))
    (hpush : ∀ pid, pid ∈ s1.pushOrder
      ↔ ∃ p ∈ s1.parts, p.pid = pid ∧ isPushed p.phase = true)
    (hsn : (s1.store.map Prod.fst).Nodup)
    (hprov : ∀ kv ∈ s1.store, kv ∈ store0
      ∨ ∃ p ∈ s1.parts, p.phase = Phase.committed ∧ kv = (hf p.content, p.content))
    (hcis : ∀ p ∈ s1.parts, p.phase = Phase.committed
      → hf p.content ∈ s1.store.map Prod.fst)
    (hleak : ∀ p ∈ s1.parts, p.phase ≠ Phase.committed
      → p.pid ∈ s1.tmp.map Prod.fst)
    (hfail : ∀ p ∈ s1.parts, isFailed p.phase = true → Resp.error 500 ∈ s1.sent) :
    Inv hf store0 (taskMinus s1) := by
  unfold taskMinus
  by_cases hc : s1.taskCounter - 1 = 0
  · rw [if_pos hc]
    refine ⟨?_, ?_, hpids, hfiles, hpush, hsn, hprov, hcis, hleak, ?_⟩
    · show s1.taskCounter - 1
        = (if s1.closed then 0 else 1) + (notCommitted s1 : Int)
      rw [hcounter]
      ring
    · show (s1.sent ++ [mkAgg s1.files]).filter isSuccess
        = if s1.taskCounter - 1 = 0 then [mkAgg s1.files] else []
      rw [if_pos hc, List.filter_append, hagg]
      simp [isSuccess_mkAgg]
    · intro q hq hqf
      exact List.mem_append_left _ (hfail q hq hqf)
  · rw [if_neg hc]
    refine ⟨?_, ?_, hpids, hfiles, hpush, hsn, hprov, hcis, hleak, hfail⟩
    · show s1.taskCounter - 1
        = (if s1.closed then 0 else 1) + (notCommitted s1 : Int)
      rw [hcounter]
      ring
    · show s1.sent.filter isSuccess
        = if s1.taskCounter - 1 = 0 then _ else []
      rw [if_neg hc]
      exact hagg

theorem inv_step_moveDone {hf : List Nat → String}
    {store0 : List (String × List Nat)} {s : UState} (pid : Nat)
    (hI : Inv hf store0 s) (he : enabledB s (Ev.moveDone pid) = true) :
    Inv hf store0 (step hf s (Ev.moveDone pid)) := by
  cases hfind : findPart s pid with
  | none => simp [enabledB, hfind, Option.any] at he
  | some p =>
    have hph : p.phase = Phase.moving := by
      simp [enabledB, hfind, Option.any] at he
      simpa using he
    obtain ⟨hpmem, hppid⟩ := findPart_mem hfind
    have hnc : p.phase ≠ Phase.committed := by
      rw [hph]
      intro hx
      cases hx
    have hct : s.taskCounter ≠ 0 :=
      counter_ne_zero_of_notCommitted_pos hI (notCommitted_pos_of_mem hpmem hnc)
    have huniq : ∀ q ∈ s.parts, q.pid = pid → q = p := fun q hq he' =>
      part_unique hI.pids_nodup hq hpmem (by rw [he', hppid])
    have hfind' : s.parts.find? (fun q => q.pid == pid) = some p := hfind
    have hco := notCommitted_setPhase_commit hI.pids_nodup hfind' hnc
    simp only [step, hfind]
    apply inv_taskMinus
    · show s.taskCounter = (if s.closed then 0 else 1)
        + (((setPhase s.parts pid Phase.committed).filter
            (fun q => q.phase != Phase.committed)).length : Int) + 1
      rw [hI.counter_eq]
      unfold notCommitted
      rw [← hco]
      push_cast
      ring
    · show s.sent.filter isSuccess = []
      have ha := hI.agg_eq
      rw [if_neg hct] at ha
      exact ha
    · show ((setPhase s.parts pid Phase.committed).map PartRec.pid).Nodup
      rw [setPhase_map_pid]
      exact hI.pids_nodup
    · show s.files = s.pushOrder.map
        (entryOfParts hf (setPhase s.parts pid Phase.committed))
      have hent : entryOfParts hf (setPhase s.parts pid Phase.committed)
          = entryOfParts hf s.parts := by
        funext pid'
        exact entryOfParts_setPhase hf s.parts pid Phase.committed pid'
      rw [hent]
      exact hI.files_eq
    · intro pid'
      constructor
      · intro hmem
        obtain ⟨q, hq, hqe, hqp⟩ := (hI.push_iff pid').1 hmem
        by_cases hcase : q.pid = pid
        · refine ⟨{ q with phase := Phase.committed },
            mem_setPhase_hit hq hcase _, hqe, rfl⟩
        · exact ⟨q, mem_setPhase_self hq hcase _, hqe, hqp⟩
      · rintro ⟨q1, hq1, hq1e, hq1p⟩
        obtain ⟨q, hq, hqe⟩ := mem_setPhase_elim hq1
        by_cases hcase : q.pid = pid
        · have hqp2 : q = p := huniq q hq hcase
          subst hqp2
          have hb : (q.pid == pid) = true := by simpa using hcase
          rw [if_pos hb] at hqe
          subst hqe
          refine (hI.push_iff pid').2 ⟨q, hq, hq1e, ?_⟩
          rw [hph]
          rfl
        · have hb : (q.pid == pid) = false := by simpa using hcase
          rw [hb] at hqe
          simp only [Bool.false_eq_true, if_false] at hqe
          subst hqe
          exact (hI.push_iff pid').2 ⟨q1, hq, hq1e, hq1p⟩
    · exact insertOverwrite_nodup hI.store_nodup
    · intro kv hkv
      rcases mem_insertOverwrite hkv with hkv | hkv
      · rcases hI.store_prov kv hkv with h | ⟨q, hq, hqc, hqe⟩
        · exact Or.inl h
        · have hqpid : q.pid ≠ pid := by
            intro hx
            exact hnc ((huniq q hq hx) ▸ hqc)
          exact Or.inr ⟨q, mem_setPhase_self hq hqpid _, hqc, hqe⟩
      · subst hkv
        exact Or.inr ⟨{ p with phase := Phase.committed },
          mem_setPhase_hit hpmem hppid _, rfl, rfl⟩
    · intro q1 hq1 hq1c
      obtain ⟨q, hq, hqe⟩ := mem_setPhase_elim hq1
      by_cases hcase : q.pid = pid
      · have hqp2 : q = p := huniq q hq hcase
        subst hqp2
        have hb : (q.pid == pid) = true := by simpa using hcase
        rw [if_pos hb] at hqe
        subst hqe
        show hf q.content ∈ (insertOverwrite s.store (hf q.content) q.content).map
          Prod.fst
        rw [insertOverwrite_map_fst]
        exact List.mem_append_right _ (List.mem_singleton.2 rfl)
      · have hb : (q.pid == pid) = false := by simpa using hcase
        rw [hb] at hqe
        simp only [Bool.false_eq_true, if_false] at hqe
        subst hqe
        exact mem_insertOverwrite_fst (hI.committed_in_store q1 hq hq1c)
    · intro q1 hq1 hq1c
      obtain ⟨q, hq, hqe⟩ := mem_setPhase_elim hq1
      by_cases hcase : q.pid = pid
      · have hb : (q.pid == pid) = true := by simpa using hcase
        rw [if_pos hb] at hqe
        subst hqe
        cases hq1c rfl
      · have hb : (q.pid == pid) = false := by simpa using hcase
        rw [hb] at hqe
        simp only [Bool.false_eq_true, if_false] at hqe
        subst hqe
        refine mem_removeTmp (hI.leak q1 hq hq1c) ?_
        intro hx
        exact hcase hx
    · intro q1 hq1 hq1f
      obtain ⟨q, hq, hqe⟩ := mem_setPhase_elim hq1
      by_cases hcase : q.pid = pid
      · have hb : (q.pid == pid) = true := by simpa using hcase
        rw [if_pos hb] at hqe
        subst hqe
        cases hq1f
      · have hb : (q.pid == pid) = false := by simpa using hcase
        rw [hb] at hqe
        simp only [Bool.false_eq_true, if_false] at hqe
        subst hqe
        exact hI.fail_sent q1 hq hq1f

theorem inv_step_closeEv {hf : List Nat → String}
    {store0 : List (String × List Nat)} {s : UState}
    (hI : Inv hf store0 s) (he : enabledB s Ev.closeEv = true) :
    Inv hf store0 (step hf s Ev.closeEv) := by
  have hcl : s.closed = false := by
    simpa [enabledB] using he
  have hct : s.taskCounter ≠ 0 := counter_ne_zero_of_not_closed hI hcl
  simp only [step]
  apply inv_taskMinus
  · show s.taskCounter = (if true then 0 else 1) + (notCommitted s : Int) + 1
    have hc := hI.counter_eq
    rw [hcl] at hc
    simp only [Bool.false_eq_true, if_false] at hc
    simp only [if_true]
    omega
  · show s.sent.filter isSuccess = []
    have ha := hI.agg_eq
    rw [if_neg hct] at ha
    exact ha
  · exact hI.pids_nodup
  · exact hI.files_eq
  · exact hI.push_iff
  · exact hI.store_nodup
  · exact hI.store_prov
  · exact hI.committed_in_store
  · exact hI.leak
  · exact hI.fail_sent

theorem inv_step_formError {hf : List Nat → String}
    {store0 : List (String × List Nat)} {s : UState} (hI : Inv hf store0 s) :
    Inv hf store0 (step hf s Ev.formError) := by
  simp only [step, onAnyError]
  refine ⟨hI.counter_eq, ?_, hI.pids_nodup, hI.files_eq, hI.push_iff,
    hI.store_nodup, hI.store_prov, hI.committed_in_store, hI.leak, ?_⟩
  · show (s.sent ++ [Resp.error 500]).filter isSuccess
      = if s.taskCounter = 0 then _ else []
    rw [List.filter_append]
    have h500 : [Resp.error 500].filter isSuccess = [] := rfl
    rw [h500, List.append_nil]
    exact hI.agg_eq
  · intro q hq hqf
    exact List.mem_append_left _ (hI.fail_sent q hq hqf)

theorem inv_step {hf : List Nat → String} {store0 : List (String × List Nat)}
    {s : UState} (e : Ev) (hI : Inv hf store0 s) (he : enabledB s e = true) :
    Inv hf store0 (step hf s e) := by
  cases e with
  | partEv pid fn content => exact inv_step_partEv pid fn content hI he
  | sinkFinish pid => exact inv_step_sinkFinish pid hI he
  | sinkFail pid written => exact inv_step_sinkFail pid written hI he
  | moveDone pid => exact inv_step_moveDone pid hI he
  | moveFail pid => exact inv_step_moveFail pid hI he
  | closeEv => exact inv_step_closeEv hI he
  | formError => exact inv_step_formError hI

theorem inv_foldl {hf : List Nat → String} {store0 : List (String × List Nat)}
    (tr : List Ev) : ∀ s : UState, Inv hf store0 s
    → validFromB hf s tr = true → Inv hf store0 (tr.foldl (step hf) s) := by
  induction tr with
  | nil => exact fun s hI _ => hI
  | cons e es ih =>
    intro s hI hv
    rw [validFromB, Bool.and_eq_true] at hv
    exact ih (step hf s e) (inv_step e hI hv.1) hv.2

theorem inv_run {hf : List Nat → String} {store0 : List (String × List Nat)}
    (h0 : (store0.map Prod.fst).Nodup) (tr : List Ev)
    (hv : validFromB hf (initState store0) tr = true) :
    Inv hf store0 (runUpload hf store0 tr) :=
  inv_foldl tr (initState store0) (inv_init hf store0 h0) hv

theorem settled_closed_and_committed {hf : List Nat → String}
    {store0 : List (String × List Nat)} {s : UState} (hI : Inv hf store0 s)
    (h : s.taskCounter = 0) :
    s.closed = true ∧ ∀ p ∈ s.parts, p.phase = Phase.committed := by
  have hc := hI.counter_eq
  rw [h] at hc
  cases hcl : s.closed with
  | false =>
    rw [hcl] at hc
    simp only [Bool.false_eq_true, if_false] at hc
    omega
  | true =>
    rw [hcl] at hc
    simp only [if_true] at hc
    have hnc : notCommitted s = 0 := by omega
    refine ⟨rfl, fun p hp => ?_⟩
    unfold notCommitted at hnc
    rw [List.length_eq_zero, List.filter_eq_nil_iff] at hnc
    have := hnc p hp
    simpa using this

theorem pushed_entry_in_files {hf : List Nat → String}
    {store0 : List (String × List Nat)} {s : UState} (hI : Inv hf store0 s)
    {p : PartRec} (hp : p ∈ s.parts) (hc : isPushed p.phase = true) :
    (p.filename, hf p.content) ∈ s.files := by
  have hpo : p.pid ∈ s.pushOrder := (hI.push_iff p.pid).2 ⟨p, hp, rfl, hc⟩
  rw [hI.files_eq]
  refine List.mem_map.2 ⟨p.pid, hpo, ?_⟩
  unfold entryOfParts
  cases hfind : s.parts.find? (fun q => q.pid == p.pid) with
  | none =>
    have := List.find?_eq_none.1 hfind p hp
    simp at this
  | some q =>
    have hqm := List.mem_of_find?_eq_some hfind
    have hqp := List.find?_some hfind
    have hqe : q.pid = p.pid := by simpa using hqp
    have hqq : q = p := part_unique hI.pids_nodup hqm hp hqe
    subst hqq
    rfl

/-!
The claims.
-/

/-- C1: for every upload request (every valid trace), the aggregate
response is produced exactly once, precisely at the step where the
outstanding-work counter transitions to zero, and a zero counter implies
the form is fully parsed and every registered part has committed or
failed. -/
theorem aggregate_response_exactly_once_at_zero {hf : List Nat → String}
    {store0 : List (String × List Nat)} (h0 : (store0.map Prod.fst).Nodup)
    (tr : List Ev) (hv : validFromB hf (initState store0) tr = true) :
    ((runUpload hf store0 tr).sent.filter isSuccess).length
        = (if (runUpload hf store0 tr).taskCounter = 0 then 1 else 0)
    ∧ ((runUpload hf store0 tr).taskCounter = 0
        → (runUpload hf store0 tr).closed = true
          ∧ ∀ p ∈ (runUpload hf store0 tr).parts,
              p.phase = Phase.committed ∨ isFailed p.phase = true)
    ∧ ∀ pre e post, tr = pre ++ e :: post
        → (((runUpload hf store0 (pre ++ [e])).sent.filter isSuccess).length
              = ((runUpload hf store0 pre).sent.filter isSuccess).length + 1
            ↔ (runUpload hf store0 pre).taskCounter ≠ 0
              ∧ (runUpload hf store0 (pre ++ [e])).taskCounter = 0) := by
  have hI := inv_run h0 tr hv
  refine ⟨?_, ?_, ?_⟩
  · rw [hI.agg_eq]
    split <;> rfl
  · intro hz
    obtain ⟨hcl, hcom⟩ := settled_closed_and_committed hI hz
    exact ⟨hcl, fun p hp => Or.inl (hcom p hp)⟩
  · intro pre e post htr
    have hsplit : tr = (pre ++ [e]) ++ post := by
      rw [htr]
      simp
    rw [hsplit, validFromB_append, Bool.and_eq_true] at hv
    have hv1 : validFromB hf (initState store0) (pre ++ [e]) = true := hv.1
    have hv0 : validFromB hf (initState store0) pre = true := by
      have := hv1
      rw [validFromB_append, Bool.and_eq_true] at this
      exact this.1
    have hI1 := inv_run h0 (pre ++ [e]) hv1
    have hI0 := inv_run h0 pre hv0
    rw [hI1.agg_eq, hI0.agg_eq]
    by_cases hc0 : (runUpload hf store0 pre).taskCounter = 0 <;>
      by_cases hc1 : (runUpload hf store0 (pre ++ [e])).taskCounter = 0 <;>
        simp [hc0, hc1]

/-- C7: when a request settles (the counter reaches zero), the response is
200 with result `no files to upload` and an empty list when no file part
was received, and 201 with result `upload OK` and the accumulated
`(name, digest)` list when at least one file part was stored. -/
theorem settled_response_status {hf : List Nat → String}
    {store0 : List (String × List Nat)} (h0 : (store0.map Prod.fst).Nodup)
    (tr : List Ev) (hv : validFromB hf (initState store0) tr = true)
    (hz : (runUpload hf store0 tr).taskCounter = 0) :
    ((runUpload hf store0 tr).parts = []
        → (runUpload hf store0 tr).sent.filter isSuccess
            = [Resp.success 200 "no files to upload" []])
    ∧ ((runUpload hf store0 tr).parts ≠ []
        → (runUpload hf store0 tr).files ≠ []
          ∧ (runUpload hf store0 tr).sent.filter isSuccess
              = [Resp.success 201 "upload OK" (runUpload hf store0 tr).files]) := by
  have hI := inv_run h0 tr hv
  have hagg := hI.agg_eq
  rw [if_pos hz] at hagg
  constructor
  · intro hparts
    have hpo : (runUpload hf store0 tr).pushOrder = [] := by
      rw [List.eq_nil_iff_forall_not_mem]
      intro pid hpid
      obtain ⟨p, hp, -, -⟩ := (hI.push_iff pid).1 hpid
      rw [hparts] at hp
      cases hp
    have hfiles : (runUpload hf store0 tr).files = [] := by
      rw [hI.files_eq, hpo]
      rfl
    rw [hagg, hfiles]
    rfl
  · intro hparts
    obtain ⟨p, hp⟩ := List.exists_mem_of_ne_nil _ hparts
    have hcom := (settled_closed_and_committed hI hz).2 p hp
    have hpush : isPushed p.phase = true := by
      rw [hcom]
      rfl
    have hpo : p.pid ∈ (runUpload hf store0 tr).pushOrder :=
      (hI.push_iff p.pid).2 ⟨p, hp, rfl, hpush⟩
    have hfiles : (runUpload hf store0 tr).files ≠ [] := by
      rw [hI.files_eq]
      intro hnil
      rw [List.map_eq_nil_iff] at hnil
      rw [hnil] at hpo
      cases hpo
    refine ⟨hfiles, ?_⟩
    rw [hagg]
    unfold mkAgg
    rw [if_neg ?_]
    intro hlen
    exact hfiles (List.length_eq_zero.1 hlen)

/-- C2: uploading the same byte sequence `B` twice, under any filenames and
whether the two parts arrive within the same request or in two consecutive
requests (the store threaded from the first into the second), yields the
digest `hf B` both times, both parts commit to the identical final path
`storageRoot/(hf B)`, and afterwards the store holds exactly one object
under that digest. -/
theorem same_bytes_same_digest_one_object {hf : List Nat → String}
    {store0 : List (String × List Nat)} (h0 : (store0.map Prod.fst).Nodup)
    (storageDir : String) (tr1 tr2 : List Ev) (B : List Nat)
    (hv1 : validFromB hf (initState store0) tr1 = true)
    (hv2 : validFromB hf (initState (runUpload hf store0 tr1).store) tr2 = true) :
    (∀ p1 ∈ (runUpload hf store0 tr1).parts,
      ∀ p2 ∈ (runUpload hf store0 tr1).parts,
        p1.content = B → p2.content = B
        → p1.phase = Phase.committed → p2.phase = Phase.committed
        → hf p1.content = hf p2.content
          ∧ (p1.filename, hf B) ∈ (runUpload hf store0 tr1).files
          ∧ (p2.filename, hf B) ∈ (runUpload hf store0 tr1).files
          ∧ destFileName storageDir (hf p1.content)
              = destFileName storageDir (hf p2.content)
          ∧ countKey (runUpload hf store0 tr1).store (hf B) = 1)
    ∧ ∀ p1 ∈ (runUpload hf store0 tr1).parts,
      ∀ p2 ∈ (runUpload hf (runUpload hf store0 tr1).store tr2).parts,
        p1.content = B → p2.content = B
        → p1.phase = Phase.committed → p2.phase = Phase.committed
        → hf p1.content = hf p2.content
          ∧ (p1.filename, hf B) ∈ (runUpload hf store0 tr1).files
          ∧ (p2.filename, hf B)
              ∈ (runUpload hf (runUpload hf store0 tr1).store tr2).files
          ∧ destFileName storageDir (hf p1.content)
              = destFileName storageDir (hf p2.content)
          ∧ countKey (runUpload hf (runUpload hf store0 tr1).store tr2).store
              (hf B) = 1 := by
  have hI1 := inv_run h0 tr1 hv1
  have hI2 := inv_run hI1.store_nodup tr2 hv2
  constructor
  · intro p1 hp1 p2 hp2 hb1 hb2 hc1 hc2
    have hpush1 : isPushed p1.phase = true := by
      rw [hc1]
      rfl
    have hpush2 : isPushed p2.phase = true := by
      rw [hc2]
      rfl
    refine ⟨by rw [hb1, hb2], ?_, ?_, by rw [hb1, hb2], ?_⟩
    · rw [← hb1]
      exact pushed_entry_in_files hI1 hp1 hpush1
    · rw [← hb2]
      exact pushed_entry_in_files hI1 hp2 hpush2
    · have hmem : hf B ∈ (runUpload hf store0 tr1).store.map Prod.fst := by
        rw [← hb1]
        exact hI1.committed_in_store p1 hp1 hc1
      exact List.count_eq_one_of_mem hI1.store_nodup hmem
  · intro p1 hp1 p2 hp2 hb1 hb2 hc1 hc2
    have hpush1 : isPushed p1.phase = true := by
      rw [hc1]
      rfl
    have hpush2 : isPushed p2.phase = true := by
      rw [hc2]
      rfl
    refine ⟨by rw [hb1, hb2], ?_, ?_, by rw [hb1, hb2], ?_⟩
    · rw [← hb1]
      exact pushed_entry_in_files hI1 hp1 hpush1
    · rw [← hb2]
      exact pushed_entry_in_files hI2 hp2 hpush2
    · have hmem : hf B
          ∈ (runUpload hf (runUpload hf store0 tr1).store tr2).store.map
            Prod.fst := by
        rw [← hb2]
        exact hI2.committed_in_store p2 hp2 hc2
      exact List.count_eq_one_of_mem hI2.store_nodup hmem

/-- C6: a part failure (failing staging write, failing rename) or a form
parse error makes `onAnyError` send a 500 `InternalServerError` at that
very step, leaving the outstanding-work counter untouched — the error
response does not wait for the counter to settle. -/
theorem failure_sends_500_immediately {hf : List Nat → String}
    {store0 : List (String × List Nat)} (pre : List Ev) (e : Ev)
    (hfe : isFailureEv e = true)
    (he : enabledB (runUpload hf store0 pre) e = true) :
    (runUpload hf store0 (pre ++ [e])).sent
        = (runUpload hf store0 pre).sent ++ [Resp.error 500]
    ∧ (runUpload hf store0 (pre ++ [e])).taskCounter
        = (runUpload hf store0 pre).taskCounter := by
  have hfold : runUpload hf store0 (pre ++ [e])
      = step hf (runUpload hf store0 pre) e := by
    unfold runUpload
    rw [List.foldl_append]
    rfl
  rw [hfold]
  cases e with
  | partEv pid fn content => cases hfe
  | sinkFinish pid => cases hfe
  | moveDone pid => cases hfe
  | sinkFail pid written =>
    cases hfind : findPart (runUpload hf store0 pre) pid with
    | none => simp [enabledB, hfind, Option.any] at he
    | some p => simp [step, hfind, onAnyError]
  | moveFail pid =>
    cases hfind : findPart (runUpload hf store0 pre) pid with
    | none => simp [enabledB, hfind, Option.any] at he
    | some p => simp [step, hfind, onAnyError]
  | closeEv => cases hfe
  | formError => simp [step, onAnyError]

/-- C3 as stated is false: in the trace below the single part's staging
write finishes, its pair is pushed onto the result list, and only then its
rename fails — the failed part's pair sits in the result list. -/
theorem failed_part_pair_in_files_counterexample : ¬ failedPartNeverInFiles := by
  intro h
  exact h hfDemo []
    [Ev.partEv 7 (some "f") [3], Ev.sinkFinish 7, Ev.moveFail 7, Ev.closeEv]
    (by decide) ⟨7, "f", [3], Phase.failedMove⟩ (by decide) (by decide) (by decide)

/-- C3 corrected: a part whose staging write fails is never pushed onto the
result list, but a part whose rename (commit) fails has already been
pushed; the success response nevertheless only ever carries the list when
every registered part committed, since any failure suppresses the settle
response. -/
theorem result_list_vs_failures {hf : List Nat → String}
    {store0 : List (String × List Nat)} (h0 : (store0.map Prod.fst).Nodup)
    (tr : List Ev) (hv : validFromB hf (initState store0) tr = true) :
    (∀ p ∈ (runUpload hf store0 tr).parts, p.phase = Phase.failedSink
        → p.pid ∉ (runUpload hf store0 tr).pushOrder)
    ∧ (∀ p ∈ (runUpload hf store0 tr).parts, p.phase = Phase.failedMove
        → p.pid ∈ (runUpload hf store0 tr).pushOrder)
    ∧ ∀ r ∈ (runUpload hf store0 tr).sent, isSuccess r = true
        → r = mkAgg (runUpload hf store0 tr).files
          ∧ ∀ p ∈ (runUpload hf store0 tr).parts, p.phase = Phase.committed := by
  have hI := inv_run h0 tr hv
  refine ⟨?_, ?_, ?_⟩
  · intro p hp hps hmem
    obtain ⟨q, hq, hqe, hqp⟩ := (hI.push_iff p.pid).1 hmem
    have hqq : q = p := part_unique hI.pids_nodup hq hp hqe
    subst hqq
    rw [hps] at hqp
    cases hqp
  · intro p hp hps
    refine (hI.push_iff p.pid).2 ⟨p, hp, rfl, ?_⟩
    rw [hps]
    rfl
  · intro r hr hrs
    have hrf : r ∈ (runUpload hf store0 tr).sent.filter isSuccess :=
      List.mem_filter.2 ⟨hr, hrs⟩
    rw [hI.agg_eq] at hrf
    by_cases hz : (runUpload hf store0 tr).taskCounter = 0
    · rw [if_pos hz] at hrf
      rw [List.mem_singleton] at hrf
      exact ⟨hrf, (settled_closed_and_committed hI hz).2⟩
    · rw [if_neg hz] at hrf
      cases hrf

/-- C4 as stated is false: with two parts whose staging writes finish in
the order 1, 2 but whose renames complete in the order 2, 1, the result
list is in staging-completion order, not rename-completion order. -/
theorem files_not_in_commit_order_counterexample : ¬ filesInCommitOrder := by
  intro h
  have hx := h hfDemo []
    [Ev.partEv 1 (some "a") [1], Ev.partEv 2 (some "b") [2, 2],
      Ev.sinkFinish 1, Ev.sinkFinish 2, Ev.moveDone 2, Ev.moveDone 1,
      Ev.closeEv] (by decide)
  exact absurd hx (by decide)

/-- C4 corrected: the result list records the parts in the order their
staging writes complete (the push happens right after the sink's finish,
before the rename), which in general is neither the order the parts were
received nor the order their renames complete. -/
theorem files_in_push_order {hf : List Nat → String}
    {store0 : List (String × List Nat)} (h0 : (store0.map Prod.fst).Nodup)
    (tr : List Ev) (hv : validFromB hf (initState store0) tr = true) :
    (runUpload hf store0 tr).files
      = (runUpload hf store0 tr).pushOrder.map
          (entryOfParts hf (runUpload hf store0 tr).parts) :=
  (inv_run h0 tr hv).files_eq

/-- C5's removal clause is false on the code: after a failed staging write
the temporary file is still in the temp area — the handler has no cleanup
path. -/
theorem failed_part_tmp_remains_counterexample : ¬ failedPartTmpRemoved := by
  intro h
  exact h hfDemo []
    [Ev.partEv 3 (some "g") [5, 6], Ev.sinkFail 3 [5], Ev.closeEv]
    (by decide) ⟨3, "g", [5, 6], Phase.failedSink⟩ (by decide) (by decide)
    (by decide)

/-- C5 corrected: when a part fails, the 500 error is propagated
immediately and no partial data is ever visible under a content-addressed
name (every store entry is preexisting or the full content of a committed
part), but the uniquely named temporary file is not removed: it is still
present in the temp area. -/
theorem failure_keeps_tmp_no_partial_store {hf : List Nat → String}
    {store0 : List (String × List Nat)} (h0 : (store0.map Prod.fst).Nodup)
    (tr : List Ev) (hv : validFromB hf (initState store0) tr = true) :
    (∀ p ∈ (runUpload hf store0 tr).parts, isFailed p.phase = true
        → p.pid ∈ (runUpload hf store0 tr).tmp.map Prod.fst
          ∧ Resp.error 500 ∈ (runUpload hf store0 tr).sent)
    ∧ ∀ kv ∈ (runUpload hf store0 tr).store, kv ∈ store0
        ∨ ∃ p ∈ (runUpload hf store0 tr).parts,
            p.phase = Phase.committed ∧ kv = (hf p.content, p.content) := by
  have hI := inv_run h0 tr hv
  refine ⟨?_, hI.store_prov⟩
  intro p hp hpf
  have hnc : p.phase ≠ Phase.committed := by
    intro hx
    rw [hx] at hpf
    cases hpf
  exact ⟨hI.leak p hp hnc, hI.fail_sent p hp hpf⟩

/-- C8: deleting a present digest removes the object and returns 200;
deleting an absent digest — in particular the same digest a second time —
returns NotFound 404; a removal that fails after existence was confirmed
returns Conflict 409, which is distinct from NotFound. -/
theorem delete_route_outcomes (store : List (String × List Nat)) (d : String) :
    (d ∈ store.map Prod.fst
        → (delRoute store d false false).1 = DelOutcome.ok200
          ∧ (delRoute store d false false).2
              = store.filter (fun kv => kv.1 != d)
          ∧ ∀ rf : Bool, (delRoute (delRoute store d false false).2 d false rf).1
              = DelOutcome.notFound404)
    ∧ (d ∉ store.map Prod.fst
        → ∀ rf : Bool, delRoute store d false rf = (DelOutcome.notFound404, store))
    ∧ (d ∈ store.map Prod.fst
        → delRoute store d false true = (DelOutcome.conflict409, store))
    ∧ DelOutcome.conflict409 ≠ DelOutcome.notFound404 := by
  have hred : ∀ (st : List (String × List Nat)) (rf : Bool), delRoute st d false rf
      = if (st.map Prod.fst).contains d = true then
          (if rf = true then (DelOutcome.conflict409, st)
            else (DelOutcome.ok200, st.filter (fun kv => kv.1 != d)))
        else (DelOutcome.notFound404, st) := fun st rf => rfl
  refine ⟨?_, ?_, ?_, by intro hx; cases hx⟩
  · intro hd
    have hc : (store.map Prod.fst).contains d = true := List.elem_iff.2 hd
    have hnc : ((store.filter (fun kv => kv.1 != d)).map Prod.fst).contains d
        = false := by
      rw [Bool.eq_false_iff]
      intro hx
      have hmem := List.elem_iff.1 hx
      rw [filter_fst_map_fst] at hmem
      have hdd := (List.mem_filter.1 hmem).2
      simp at hdd
    have h1 : delRoute store d false false
        = (DelOutcome.ok200, store.filter (fun kv => kv.1 != d)) := by
      rw [hred, if_pos hc, if_neg (by simp)]
    refine ⟨by rw [h1], by rw [h1], ?_⟩
    intro rf
    rw [h1]
    show (delRoute (store.filter (fun kv => kv.1 != d)) d false rf).1 = _
    rw [hred, if_neg (by simp [hnc])]
  · intro hd rf
    have hc : (store.map Prod.fst).contains d = false := by
      rw [Bool.eq_false_iff]
      intro hx
      exact hd (List.elem_iff.1 hx)
    rw [hred, if_neg (by rw [hc]; simp)]
  · intro hd
    have hc : (store.map Prod.fst).contains d = true := List.elem_iff.2 hd
    rw [hred, if_pos hc, if_pos rfl]

/-- C9: constructing the ContentStore with a missing `createHash` or any
non-function value throws the fatal
`TypeError('createHash should be a function')`; with a function it
succeeds, and the `opts` configuration has no influence on whether
construction succeeds. -/
theorem constructor_requires_function (opts opts2 : Opts) (h : JsValue) :
    contentStoreConstruct opts JsValue.undef
        = Except.error "createHash should be a function"
    ∧ (isFunctionV h = false
        → contentStoreConstruct opts h
            = Except.error "createHash should be a function")
    ∧ (isFunctionV h = true
        → contentStoreConstruct opts h
            = Except.ok { name := opts.name.getD "content-store",
                          storageDir := opts.storageDir.getD "data" })
    ∧ (contentStoreConstruct opts h).isOk
        = (contentStoreConstruct opts2 h).isOk := by
  refine ⟨rfl, ?_, ?_, ?_⟩
  · intro hnf
    simp [contentStoreConstruct, hnf]
  · intro hfn
    cases h <;> simp_all [contentStoreConstruct, falsy, isFunctionV]
  · cases h <;> simp [contentStoreConstruct, falsy, isFunctionV, Except.isOk,
      Except.toBool]

theorem foldl_nonfile (hf : List Nat → String) (s : UState)
    (ps : List (Nat × List Nat)) :
    (ps.map (fun q => Ev.partEv q.1 none q.2)).foldl (step hf) s = s := by
  induction ps with
  | nil => rfl
  | cons q rest ih =>
    rw [List.map_cons, List.foldl_cons]
    exact ih

theorem validFromB_nonfile (hf : List Nat → String)
    (store0 : List (String × List Nat)) (ps : List (Nat × List Nat)) :
    validFromB hf (initState store0)
      (ps.map (fun q => Ev.partEv q.1 none q.2)) = true := by
  induction ps with
  | nil => rfl
  | cons q rest ih =>
    rw [List.map_cons, validFromB]
    have hen : enabledB (initState store0) (Ev.partEv q.1 none q.2) = true := rfl
    rw [hen, Bool.true_and]
    exact ih

/-- C10: a part without a filename is ignored completely — the step
function leaves the whole state untouched — and a request consisting only
of such parts settles with the 200 `no files to upload` response, an empty
result list, an empty temp area and an unchanged store. -/
theorem nonfile_parts_ignored (hf : List Nat → String)
    (store0 : List (String × List Nat)) (ps : List (Nat × List Nat)) :
    (∀ (s : UState) (pid : Nat) (content : List Nat),
        step hf s (Ev.partEv pid none content) = s)
    ∧ validFromB hf (initState store0)
        (ps.map (fun q => Ev.partEv q.1 none q.2) ++ [Ev.closeEv]) = true
    ∧ (runUpload hf store0
          (ps.map (fun q => Ev.partEv q.1 none q.2) ++ [Ev.closeEv])).sent
        = [Resp.success 200 "no files to upload" []]
    ∧ (runUpload hf store0
          (ps.map (fun q => Ev.partEv q.1 none q.2) ++ [Ev.closeEv])).store
        = store0
    ∧ (runUpload hf store0
          (ps.map (fun q => Ev.partEv q.1 none q.2) ++ [Ev.closeEv])).tmp = []
    ∧ (runUpload hf store0
          (ps.map (fun q => Ev.partEv q.1 none q.2) ++ [Ev.closeEv])).files = []
    ∧ (runUpload hf store0
          (ps.map (fun q => Ev.partEv q.1 none q.2) ++ [Ev.closeEv])).taskCounter
        = 0 := by
  have hrun : runUpload hf store0
      (ps.map (fun q => Ev.partEv q.1 none q.2) ++ [Ev.closeEv])
      = step hf (initState store0) Ev.closeEv := by
    unfold runUpload
    rw [List.foldl_append, foldl_nonfile]
    rfl
  have hstep : step hf (initState store0) Ev.closeEv
      = { initState store0 with
          taskCounter := 0
          closed := true
          sent := [Resp.success 200 "no files to upload" []] } := by
    show taskMinus { initState store0 with closed := true } = _
    simp [taskMinus, mkAgg, initState]
  refine ⟨fun s pid content => rfl, ?_, ?_, ?_, ?_, ?_, ?_⟩
  · rw [validFromB_append, validFromB_nonfile, foldl_nonfile]
    rfl
  · rw [hrun, hstep]
  · rw [hrun, hstep]
    rfl
  · rw [hrun, hstep]
    rfl
  · rw [hrun, hstep]
    rfl
  · rw [hrun, hstep]

/-!
Concrete witnesses: each theorem above with hypotheses is exercised on a
concrete trace, discharging its hypotheses by evaluation.
-/

theorem aggregate_response_exactly_once_at_zero_witness :
    validFromB hfDemo (initState [])
        [Ev.partEv 0 (some "a") [1], Ev.sinkFinish 0, Ev.moveDone 0,
          Ev.closeEv] = true
    ∧ ((runUpload hfDemo []
          [Ev.partEv 0 (some "a") [1], Ev.sinkFinish 0, Ev.moveDone 0,
            Ev.closeEv]).sent.filter isSuccess).length
        = (if (runUpload hfDemo []
              [Ev.partEv 0 (some "a") [1], Ev.sinkFinish 0, Ev.moveDone 0,
                Ev.closeEv]).taskCounter = 0 then 1 else 0) :=
  ⟨by decide, (aggregate_response_exactly_once_at_zero (by decide) _ (by decide)).1⟩

theorem same_bytes_same_digest_one_object_witness :
    validFromB hfDemo (initState [])
        [Ev.partEv 0 (some "x") [9], Ev.partEv 1 (some "y") [9],
          Ev.sinkFinish 0, Ev.moveDone 0, Ev.sinkFinish 1, Ev.moveDone 1,
          Ev.closeEv] = true
    ∧ countKey (runUpload hfDemo []
          [Ev.partEv 0 (some "x") [9], Ev.partEv 1 (some "y") [9],
            Ev.sinkFinish 0, Ev.moveDone 0, Ev.sinkFinish 1, Ev.moveDone 1,
            Ev.closeEv]).store (hfDemo [9]) = 1
    ∧ countKey (runUpload hfDemo
          (runUpload hfDemo []
            [Ev.partEv 0 (some "x") [9], Ev.partEv 1 (some "y") [9],
              Ev.sinkFinish 0, Ev.moveDone 0, Ev.sinkFinish 1, Ev.moveDone 1,
              Ev.closeEv]).store
          [Ev.partEv 2 (some "z") [9], Ev.sinkFinish 2, Ev.moveDone 2,
            Ev.closeEv]).store (hfDemo [9]) = 1 :=
  ⟨by decide,
    ((same_bytes_same_digest_one_object (by decide) "root"
        [Ev.partEv 0 (some "x") [9], Ev.partEv 1 (some "y") [9],
          Ev.sinkFinish 0, Ev.moveDone 0, Ev.sinkFinish 1, Ev.moveDone 1,
          Ev.closeEv]
        [Ev.partEv 2 (some "z") [9], Ev.sinkFinish 2, Ev.moveDone 2,
          Ev.closeEv]
        [9] (by decide) (by decide)).1
      ⟨0, "x", [9], Phase.committed⟩ (by decide)
      ⟨1, "y", [9], Phase.committed⟩ (by decide) rfl rfl rfl rfl).2.2.2.2,
    ((same_bytes_same_digest_one_object (by decide) "root"
        [Ev.partEv 0 (some "x") [9], Ev.partEv 1 (some "y") [9],
          Ev.sinkFinish 0, Ev.moveDone 0, Ev.sinkFinish 1, Ev.moveDone 1,
          Ev.closeEv]
        [Ev.partEv 2 (some "z") [9], Ev.sinkFinish 2, Ev.moveDone 2,
          Ev.closeEv]
        [9] (by decide) (by decide)).2
      ⟨0, "x", [9], Phase.committed⟩ (by decide)
      ⟨2, "z", [9], Phase.committed⟩ (by decide) rfl rfl rfl rfl).2.2.2.2⟩

theorem result_list_vs_failures_witness :
    validFromB hfDemo (initState [])
        [Ev.partEv 4 (some "s") [1, 2], Ev.sinkFail 4 [1], Ev.closeEv] = true
    ∧ (4 : Nat) ∉ (runUpload hfDemo []
        [Ev.partEv 4 (some "s") [1, 2], Ev.sinkFail 4 [1],
          Ev.closeEv]).pushOrder :=
  ⟨by decide,
    (result_list_vs_failures (by decide) _ (by decide)).1
      ⟨4, "s", [1, 2], Phase.failedSink⟩ (by decide) (by decide)⟩

theorem files_in_push_order_witness :
    validFromB hfDemo (initState [])
        [Ev.partEv 8 (some "p") [1], Ev.partEv 9 (some "q") [2],
          Ev.sinkFinish 9, Ev.sinkFinish 8, Ev.moveDone 8, Ev.moveDone 9,
          Ev.closeEv] = true
    ∧ (runUpload hfDemo []
          [Ev.partEv 8 (some "p") [1], Ev.partEv 9 (some "q") [2],
            Ev.sinkFinish 9, Ev.sinkFinish 8, Ev.moveDone 8, Ev.moveDone 9,
            Ev.closeEv]).files
        = (runUpload hfDemo []
            [Ev.partEv 8 (some "p") [1], Ev.partEv 9 (some "q") [2],
              Ev.sinkFinish 9, Ev.sinkFinish 8, Ev.moveDone 8, Ev.moveDone 9,
              Ev.closeEv]).pushOrder.map
            (entryOfParts hfDemo (runUpload hfDemo []
              [Ev.partEv 8 (some "p") [1], Ev.partEv 9 (some "q") [2],
                Ev.sinkFinish 9, Ev.sinkFinish 8, Ev.moveDone 8,
                Ev.moveDone 9, Ev.closeEv]).parts) :=
  ⟨by decide, files_in_push_order (by decide) _ (by decide)⟩

theorem failure_keeps_tmp_no_partial_store_witness :
    validFromB hfDemo (initState [])
        [Ev.partEv 5 (some "t") [7, 8, 9], Ev.sinkFail 5 [7, 8],
          Ev.closeEv] = true
    ∧ (5 : Nat) ∈ (runUpload hfDemo []
          [Ev.partEv 5 (some "t") [7, 8, 9], Ev.sinkFail 5 [7, 8],
            Ev.closeEv]).tmp.map Prod.fst
    ∧ Resp.error 500 ∈ (runUpload hfDemo []
        [Ev.partEv 5 (some "t") [7, 8, 9], Ev.sinkFail 5 [7, 8],
          Ev.closeEv]).sent :=
  ⟨by decide,
    ((failure_keeps_tmp_no_partial_store (by decide) _ (by decide)).1
      ⟨5, "t", [7, 8, 9], Phase.failedSink⟩ (by decide) (by decide)).1,
    ((failure_keeps_tmp_no_partial_store (by decide) _ (by decide)).1
      ⟨5, "t", [7, 8, 9], Phase.failedSink⟩ (by decide) (by decide)).2⟩

theorem failure_sends_500_immediately_witness :
    isFailureEv (Ev.sinkFail 6 []) = true
    ∧ enabledB (runUpload hfDemo [] [Ev.partEv 6 (some "u") [2]])
        (Ev.sinkFail 6 []) = true
    ∧ (runUpload hfDemo []
          ([Ev.partEv 6 (some "u") [2]] ++ [Ev.sinkFail 6 []])).sent
        = (runUpload hfDemo [] [Ev.partEv 6 (some "u") [2]]).sent
          ++ [Resp.error 500] :=
  ⟨by decide, by decide,
    (failure_sends_500_immediately [Ev.partEv 6 (some "u") [2]]
      (Ev.sinkFail 6 []) (by decide) (by decide)).1⟩

theorem settled_response_status_witness :
    validFromB hfDemo (initState []) [Ev.closeEv] = true
    ∧ (runUpload hfDemo [] [Ev.closeEv]).taskCounter = 0
    ∧ (runUpload hfDemo [] [Ev.closeEv]).sent.filter isSuccess
        = [Resp.success 200 "no files to upload" []] :=
  ⟨by decide, by decide,
    (settled_response_status (by decide) _ (by decide) (by decide)).1
      (by decide)⟩

theorem delete_route_outcomes_witness :
    ("d" : String) ∈ ([("d", [1])] : List (String × List Nat)).map Prod.fst
    ∧ (delRoute [("d", [1])] "d" false false).1 = DelOutcome.ok200
    ∧ (delRoute (delRoute [("d", [1])] "d" false false).2 "d" false false).1
        = DelOutcome.notFound404 :=
  ⟨by decide, ((delete_route_outcomes [("d", [1])] "d").1 (by decide)).1,
    ((delete_route_outcomes [("d", [1])] "d").1 (by decide)).2.2 false⟩

theorem constructor_requires_function_witness :
    isFunctionV (JsValue.strV "x") = false
    ∧ contentStoreConstruct ⟨none, none⟩ (JsValue.strV "x")
        = Except.error "createHash should be a function" :=
  ⟨by decide,
    (constructor_requires_function ⟨none, none⟩ ⟨some "n", some "dir"⟩
      (JsValue.strV "x")).2.1 (by decide)⟩

theorem nonfile_parts_ignored_witness :
    (runUpload hfDemo [("k", [2])]
        ([(1, [3])].map (fun q => Ev.partEv q.1 none q.2) ++ [Ev.closeEv])).sent
      = [Resp.success 200 "no files to upload" []]
    ∧ (runUpload hfDemo [("k", [2])]
        ([(1, [3])].map (fun q => Ev.partEv q.1 none q.2)
          ++ [Ev.closeEv])).store
      = [("k", [2])] :=
  ⟨(nonfile_parts_ignored hfDemo [("k", [2])] [(1, [3])]).2.2.1,
    (nonfile_parts_ignored hfDemo [("k", [2])] [(1, [3])]).2.2.2.1⟩

end ContentStore
